import Mathlib

/-
Verification of the data aggregation and filtering pipeline of the
`automacaofechamentos` repository (src/processar_dados.py), as a shallow
embedding over lists of transaction records.

Python strings are embedded as `List Char` where character-level processing
matters (payment text, raw date text, phone numbers) and as `String` where
only equality and ordering matter (agent and unit names).  Currency values
are embedded as rationals.  A parsed delivery date is encoded as the natural
number `year * 10000 + month * 100 + day`, whose order coincides with
chronological order.
-/

namespace Fechamentos

/-! ## Date parsing (`pd.to_datetime` / `datetime.strptime` with format `%d/%m/%Y`) -/

/-- Numeric value of a digit string (most significant digit first). -/
def valorDigitos (s : List Char) : Nat :=
  s.foldl (fun n c => 10 * n + (c.toNat - 48)) 0

/-- Split a character list on the separator `/`, as `str.split` does. -/
def divideBarra : List Char → List (List Char)
  | [] => [[]]
  | c :: t =>
    if c = '/' then [] :: divideBarra t
    else
      match divideBarra t with
      | [] => [[c]]
      | p :: ps => (c :: p) :: ps

/-- Days in a month, with the Gregorian leap rule used by `datetime`. -/
def diasNoMes (m y : Nat) : Nat :=
  if m = 2 then (if y % 4 = 0 ∧ (y % 100 ≠ 0 ∨ y % 400 = 0) then 29 else 28)
  else if m = 4 ∨ m = 6 ∨ m = 9 ∨ m = 11 then 30
  else 31

/-- Parsing of a `DD/MM/YYYY` date text, mirroring `strptime(s, "%d/%m/%Y")`:
day and month are one or two digits within range, the year is exactly four
digits, and the day must exist in the given month and year.  A successful
parse yields `y * 10000 + m * 100 + d`. -/
def parseDate (s : List Char) : Option Nat :=
  match divideBarra s with
  | [ds, ms, ys] =>
    let d := valorDigitos ds
    let m := valorDigitos ms
    let y := valorDigitos ys
    if ds.all Char.isDigit ∧ ms.all Char.isDigit ∧ ys.all Char.isDigit ∧
        (ds.length = 1 ∨ ds.length = 2) ∧ (ms.length = 1 ∨ ms.length = 2) ∧
        ys.length = 4 ∧
        1 ≤ d ∧ d ≤ 31 ∧ 1 ≤ m ∧ m ≤ 12 ∧ 1 ≤ y ∧ d ≤ diasNoMes m y then
      some (y * 10000 + m * 100 + d)
    else none
  | _ => none

/-! ## Records -/

/-- The delivery date column: before conversion it holds raw text, after
`pd.to_datetime` it holds parsed datetime values. -/
inductive DateCell where
  | raw (s : List Char)
  | parsed (d : Nat)
  deriving DecidableEq, Repr

/-- Reading a date cell as `pd.to_datetime(column, format="%d/%m/%Y",
errors="coerce")` does: raw text is parsed, already-converted datetime
values pass through unchanged. -/
def parseCell : DateCell → Option Nat
  | .raw s => parseDate s
  | .parsed d => some d

/-- One row of the raw transaction sheet (the fields the pipeline reads). -/
structure Registro where
  entregador : String
  dataEntrega : DateCell
  valor : ℚ
  operacao : String
  pgto : Option (List Char)
  deriving DecidableEq, Repr

/-- One row after date conversion: the date column is typed (datetime64). -/
structure RegistroF where
  entregador : String
  data : Nat
  valor : ℚ
  operacao : String
  pgto : Option (List Char)
  deriving DecidableEq, Repr

/-- Attach a parsed date to a raw record, keeping every other column. -/
def toF (r : Registro) (d : Nat) : RegistroF :=
  ⟨r.entregador, d, r.valor, r.operacao, r.pgto⟩

/-- View a converted record again as a raw record whose date cell holds the
datetime value, as the output DataFrame of the filter stage does. -/
def toRegistro (r : RegistroF) : Registro :=
  ⟨r.entregador, .parsed r.data, r.valor, r.operacao, r.pgto⟩

/-! ## Filter stage (`filtrar_dados`) -/

/-- Lowercasing of a text, as `.str.lower()` applied to the column. -/
def minusculas (s : List Char) : List Char := s.map Char.toLower

/-- Whether `pre` is an initial segment of `s` (Python `startswith`). -/
def comecaCom : List Char → List Char → Bool
  | [], _ => true
  | _ :: _, [] => false
  | a :: as, b :: bs => a == b && comecaCom as bs

/-- Whether `agulha` occurs as a contiguous substring (Python `in`,
`.str.contains` with a literal pattern). -/
def contemSub (agulha : List Char) : List Char → Bool
  | [] => comecaCom agulha []
  | c :: t => comecaCom agulha (c :: t) || contemSub agulha t

/-- The payment keyword searched for. -/
def dinheiro : List Char := ['d', 'i', 'n', 'h', 'e', 'i', 'r', 'o']

/-- Payment predicate of filter 1: lowercase the cell and test for the
substring `dinheiro`; a missing cell counts as no match (`na=False`). -/
def pagamentoOk : Option (List Char) → Bool
  | none => false
  | some s => contemSub dinheiro (minusculas s)

/-- Filter 1: keep only rows whose payment text contains `dinheiro`. -/
def filtro_pagamento (df : List Registro) : List Registro :=
  df.filter (fun r => pagamentoOk r.pgto)

/-- Filter 2: convert the date column and drop rows whose cell does not
parse (`errors="coerce"` followed by `dropna`). -/
def converter_datas (df : List Registro) : List RegistroF :=
  df.filterMap (fun r => (parseCell r.dataEntrega).map (toF r))

/-- Filter 3: keep rows whose date lies in the inclusive range. -/
def filtro_periodo (df : List RegistroF) (a b : Nat) : List RegistroF :=
  df.filter (fun r => decide (a ≤ r.data) && decide (r.data ≤ b))

/-- Filter 4: drop rows whose agent is in the exclusion list (`~isin`). -/
def filtro_exclusoes (df : List RegistroF) (exc : List String) : List RegistroF :=
  df.filter (fun r => !(decide (r.entregador ∈ exc)))

/-- The filter stage.  The four filters run in the order of the source;
`strptime` on the two boundary date texts raises on malformed input, which
the embedding reports as `none`. -/
def filtrar_dados (df : List Registro) (data_inicio data_fim : List Char)
    (exclusoes : List String) : Option (List RegistroF) :=
  match parseDate data_inicio, parseDate data_fim with
  | some a, some b =>
    some (filtro_exclusoes (filtro_periodo (converter_datas (filtro_pagamento df)) a b)
      exclusoes)
  | _, _ => none

/-- The count of rows dropped for an unparseable date, printed by the stage
(variable `removidos_nat` in the source). -/
def removidos_nat (df : List Registro) : Nat :=
  (filtro_pagamento df).length - (converter_datas (filtro_pagamento df)).length

/-! ## Aggregation stage (`agrupar_por_operacao`) -/

/-- Distinct values in order of first appearance (`pandas.unique`). -/
def dedupPrimeira (l : List String) : List String :=
  l.foldl (fun acc x => if x ∈ acc then acc else acc ++ [x]) []

/-- Lexicographic comparison of two character lists by code point, the
order Python uses on strings. -/
def ltLista : List Char → List Char → Bool
  | _, [] => false
  | [], _ :: _ => true
  | a :: as, b :: bs =>
    if a.toNat < b.toNat then true
    else if b.toNat < a.toNat then false
    else ltLista as bs

/-- String comparison by code points. -/
def ltStr (a b : String) : Bool := ltLista a.data b.data

/-- Ordered insertion dropping duplicates; building block of the sorted
index and column sets that `pivot_table` produces. -/
def insereOrd {α : Type} [DecidableEq α] (ltB : α → α → Bool) (x : α) :
    List α → List α
  | [] => [x]
  | y :: t =>
    if ltB x y then x :: y :: t else if x = y then y :: t else y :: insereOrd ltB x t

/-- The sorted duplicate-free list of values, as `pivot_table` uses for its
row index and its columns. -/
def ordenarUnico {α : Type} [DecidableEq α] (ltB : α → α → Bool) (l : List α) :
    List α :=
  l.foldr (insereOrd ltB) []

/-- Sum of the value column over a list of rows. -/
def somaValores (l : List RegistroF) : ℚ :=
  (l.map (fun r => r.valor)).sum

/-- One cell of the pivot: the summed value of the rows with the given
agent and date (`aggfunc="sum"`), `0` when no row matches (`fill_value=0`). -/
def celula (l : List RegistroF) (a : String) (d : Nat) : ℚ :=
  somaValores (l.filter (fun r => decide (r.entregador = a) && decide (r.data = d)))

/-- One agent row of the pivot: the date cells in column order followed by
the `Total` cell, the sum across the date columns (`pivot.sum(axis=1)`). -/
def linhaBase (l : List RegistroF) (ds : List Nat) (a : String) :
    String × List ℚ × ℚ :=
  let cs := ds.map (celula l a)
  (a, cs, cs.sum)

/-- Column-wise sum over the given rows at date-column position `j`. -/
def somaColuna (base : List (String × List ℚ × ℚ)) (j : Nat) : ℚ :=
  (base.map (fun row => row.2.1.getD j 0)).sum

/-- The synthetic row `pivot.sum(axis=0)`: every date column summed over
the current rows, and the `Total` column summed likewise. -/
def linhaTotalDe (ds : List Nat) (base : List (String × List ℚ × ℚ)) :
    String × List ℚ × ℚ :=
  ("TOTAL", (List.range ds.length).map (somaColuna base), (base.map (fun row => row.2.2)).sum)

/-- A pivoted unit table: the sorted date columns, and the rows in index
order, each row carrying its label, its date cells and its `Total` cell.
The `Total` column is structurally the last column, as in the source where
it is appended after all date columns. -/
structure Tabela where
  datas : List Nat
  linhas : List (String × List ℚ × ℚ)
  deriving DecidableEq, Repr

/-- The pivoted table of one unit.  `pivot.loc["TOTAL"] = pivot.sum(axis=0)`
appends a new last row when no agent is labelled `TOTAL`, and otherwise
overwrites the existing row of that label. -/
def tabelaDe (l : List RegistroF) : Tabela :=
  let ags := ordenarUnico ltStr (l.map (fun r => r.entregador))
  let ds := ordenarUnico Nat.blt (l.map (fun r => r.data))
  let base := ags.map (linhaBase l ds)
  let tot := linhaTotalDe ds base
  ⟨ds, if "TOTAL" ∈ ags then base.map (fun row => if row.1 = "TOTAL" then tot else row)
       else base ++ [tot]⟩

/-- The aggregation stage: one pivoted table per distinct unit, keyed by
unit in order of first appearance. -/
def agrupar_por_operacao (df : List RegistroF) : List (String × Tabela) :=
  (dedupPrimeira (df.map (fun r => r.operacao))).map
    (fun op => (op, tabelaDe (df.filter (fun r => decide (r.operacao = op)))))

/-! ## Summary stage (`gerar_resumo_geral`) -/

/-- Grand-total extraction loop: for each unit, read the cell
`df.loc["TOTAL", "Total"]`; a table without a `TOTAL` row makes the lookup
raise (`KeyError`), reported as `none`. -/
def resumoBase : List (String × Tabela) → Option (List (String × ℚ))
  | [] => some []
  | (op, t) :: rest =>
    match t.linhas.find? (fun row => decide (row.1 = "TOTAL")), resumoBase rest with
    | some row, some rs => some ((op, row.2.2) :: rs)
    | _, _ => none

/-- Stable descending insertion by total.  The embedding fixes a stable
order; see the development notes on the sort kind the source requests. -/
def insereDesc (x : String × ℚ) : List (String × ℚ) → List (String × ℚ)
  | [] => [x]
  | y :: t => if y.2 ≤ x.2 then x :: y :: t else y :: insereDesc x t

/-- Sort the summary rows by total, largest first. -/
def ordenarDesc (l : List (String × ℚ)) : List (String × ℚ) :=
  l.foldr insereDesc []

/-- The summary stage: (unit, grand total) pairs sorted descending, then
one synthetic `TOTAL` row holding the sum of the sorted column.  An empty
mapping builds `pd.DataFrame([])`, which has no columns, so the subsequent
`sort_values` raises (`KeyError`); the embedding reports that as `none`. -/
def gerar_resumo_geral (relatorios : List (String × Tabela)) :
    Option (List (String × ℚ)) :=
  match resumoBase relatorios with
  | none => none
  | some [] => none
  | some resumo =>
    let ordenado := ordenarDesc resumo
    some (ordenado ++ [("TOTAL", (ordenado.map (fun p => p.2)).sum)])

/-! ## Phone normalizer (`normalizar_whatsapp`) -/

/-- Normalization of a WhatsApp number: keep only the digits, then prepend
the country code `55` unless the digits already start with it. -/
def normalizar_whatsapp (numero : List Char) : List Char :=
  let numeros := numero.filter Char.isDigit
  if comecaCom ['5', '5'] numeros then numeros else '5' :: '5' :: numeros

/-! ## Lemmas about the orderings -/

theorem charToNat_inj {a b : Char} (h : a.toNat = b.toNat) : a = b := by
  apply Char.ext
  apply UInt32.eq_of_val_eq
  apply Fin.ext
  exact h

theorem ltLista_irrefl : ∀ l : List Char, ltLista l l = false := by
  intro l
  induction l with
  | nil => rfl
  | cons c t ih => simp [ltLista, ih]

theorem ltLista_trans : ∀ a b c : List Char,
    ltLista a b = true → ltLista b c = true → ltLista a c = true := by
  intro a
  induction a with
  | nil =>
    intro b c hab hbc
    cases b with
    | nil => simp [ltLista] at hab
    | cons y bs =>
      cases c with
      | nil => simp [ltLista] at hbc
      | cons z cs => rfl
  | cons x as ih =>
    intro b c hab hbc
    cases b with
    | nil => simp [ltLista] at hab
    | cons y bs =>
      cases c with
      | nil => simp [ltLista] at hbc
      | cons z cs =>
        simp only [ltLista] at hab hbc ⊢
        rcases Nat.lt_trichotomy x.toNat y.toNat with hxy | hxy | hxy
        · rcases Nat.lt_trichotomy y.toNat z.toNat with hyz | hyz | hyz
          · rw [if_pos (by omega)]
          · rw [if_pos (by omega)]
          · rw [if_neg (by omega), if_pos (by omega)] at hbc
            exact absurd hbc (by simp)
        · rcases Nat.lt_trichotomy y.toNat z.toNat with hyz | hyz | hyz
          · rw [if_pos (by omega)]
          · rw [if_neg (by omega), if_neg (by omega)] at hab
            rw [if_neg (by omega), if_neg (by omega)] at hbc
            rw [if_neg (by omega), if_neg (by omega)]
            exact ih bs cs hab hbc
          · rw [if_neg (by omega), if_pos (by omega)] at hbc
            exact absurd hbc (by simp)
        · rw [if_neg (by omega), if_pos (by omega)] at hab
          exact absurd hab (by simp)

theorem ltLista_conn : ∀ a b : List Char,
    ltLista a b = false → ltLista b a = false → a = b := by
  intro a
  induction a with
  | nil =>
    intro b hab _
    cases b with
    | nil => rfl
    | cons y bs => simp [ltLista] at hab
  | cons x as ih =>
    intro b hab hba
    cases b with
    | nil => simp [ltLista] at hba
    | cons y bs =>
      simp only [ltLista] at hab hba
      rcases Nat.lt_trichotomy x.toNat y.toNat with hxy | hxy | hxy
      · rw [if_pos hxy] at hab
        exact absurd hab (by simp)
      · rw [if_neg (by omega), if_neg (by omega)] at hab
        rw [if_neg (by omega), if_neg (by omega)] at hba
        have he : x = y := charToNat_inj hxy
        rw [he, ih bs hab hba]
      · rw [if_pos hxy] at hba
        exact absurd hba (by simp)

theorem ltStr_irrefl (a : String) : ltStr a a = false := ltLista_irrefl a.data

theorem ltStr_trans {a b c : String} (h1 : ltStr a b = true) (h2 : ltStr b c = true) :
    ltStr a c = true := ltLista_trans a.data b.data c.data h1 h2

theorem ltStr_conn {a b : String} (h1 : ltStr a b = false) (h2 : ltStr b a = false) :
    a = b := by
  have h := ltLista_conn a.data b.data h1 h2
  cases a
  cases b
  simp only at h
  rw [h]

/-! ## Lemmas about ordered duplicate-free insertion -/

section Ordenacao

variable {α : Type} [DecidableEq α] {ltB : α → α → Bool}

theorem mem_insereOrd (x : α) (l : List α) (a : α) :
    a ∈ insereOrd ltB x l ↔ a = x ∨ a ∈ l := by
  induction l with
  | nil => simp [insereOrd]
  | cons y t ih =>
    show a ∈ (if ltB x y then x :: y :: t else if x = y then y :: t else y :: insereOrd ltB x t) ↔ _
    by_cases h1 : ltB x y
    · rw [if_pos h1]
      simp [List.mem_cons]
    · rw [if_neg h1]
      by_cases h2 : x = y
      · subst h2
        rw [if_pos rfl]
        simp only [List.mem_cons]
        tauto
      · rw [if_neg h2]
        simp only [List.mem_cons, ih]
        tauto

theorem pairwise_insereOrd
    (htrans : ∀ a b c, ltB a b = true → ltB b c = true → ltB a c = true)
    (htot : ∀ a b, ltB a b = false → a ≠ b → ltB b a = true)
    (x : α) (l : List α) (h : l.Pairwise (fun a b => ltB a b = true)) :
    (insereOrd ltB x l).Pairwise (fun a b => ltB a b = true) := by
  induction l with
  | nil => simp [insereOrd]
  | cons y t ih =>
    rcases List.pairwise_cons.mp h with ⟨hy, ht⟩
    show ((if ltB x y then x :: y :: t else if x = y then y :: t else y :: insereOrd ltB x t)).Pairwise _
    by_cases h1 : ltB x y
    · rw [if_pos h1]
      refine List.pairwise_cons.mpr ⟨?_, h⟩
      intro b hb
      rcases List.mem_cons.mp hb with rfl | hbt
      · exact h1
      · exact htrans x y b h1 (hy b hbt)
    · by_cases h2 : x = y
      · rw [if_neg h1, if_pos h2]
        exact h
      · rw [if_neg h1, if_neg h2]
        refine List.pairwise_cons.mpr ⟨?_, ih ht⟩
        intro b hb
        rcases (mem_insereOrd x t b).mp hb with he | hbt
        · rw [he]
          exact htot x y (by simpa using h1) h2
        · exact hy b hbt

theorem mem_ordenarUnico (l : List α) (a : α) : a ∈ ordenarUnico ltB l ↔ a ∈ l := by
  induction l with
  | nil => simp [ordenarUnico]
  | cons x t ih =>
    have : ordenarUnico ltB (x :: t) = insereOrd ltB x (ordenarUnico ltB t) := rfl
    rw [this, mem_insereOrd, ih, List.mem_cons]

theorem pairwise_ordenarUnico
    (htrans : ∀ a b c, ltB a b = true → ltB b c = true → ltB a c = true)
    (htot : ∀ a b, ltB a b = false → a ≠ b → ltB b a = true)
    (l : List α) :
    (ordenarUnico ltB l).Pairwise (fun a b => ltB a b = true) := by
  induction l with
  | nil => simp [ordenarUnico]
  | cons x t ih => exact pairwise_insereOrd htrans htot x (ordenarUnico ltB t) ih

theorem nodup_ordenarUnico
    (hirr : ∀ a, ltB a a = false)
    (htrans : ∀ a b c, ltB a b = true → ltB b c = true → ltB a c = true)
    (htot : ∀ a b, ltB a b = false → a ≠ b → ltB b a = true)
    (l : List α) :
    (ordenarUnico ltB l).Nodup := by
  refine (pairwise_ordenarUnico htrans htot l).imp ?_
  intro a b hab he
  subst he
  rw [hirr a] at hab
  exact absurd hab (by simp)

end Ordenacao

theorem nodup_ordenarUnico_str (l : List String) : (ordenarUnico ltStr l).Nodup := by
  refine nodup_ordenarUnico ltStr_irrefl (fun a b c => ltLista_trans a.data b.data c.data) ?_ l
  intro a b h1 h2
  by_contra h3
  exact h2 (ltStr_conn h1 (by simpa using h3))

theorem nodup_ordenarUnico_nat (l : List Nat) : (ordenarUnico Nat.blt l).Nodup := by
  refine nodup_ordenarUnico ?_ ?_ ?_ l
  · intro a
    rw [Bool.eq_false_iff]
    rw [ne_eq, Nat.blt_eq]
    omega
  · intro a b c h1 h2
    rw [Nat.blt_eq] at h1 h2 ⊢
    omega
  · intro a b h1 h2
    rw [Bool.eq_false_iff, ne_eq, Nat.blt_eq] at h1
    rw [Nat.blt_eq]
    omega

/-! ## Lemmas about the filter stage -/

theorem filtrar_dados_eq_some {df : List Registro} {di dfim : List Char}
    {exc : List String} {out : List RegistroF}
    (h : filtrar_dados df di dfim exc = some out) :
    ∃ a b, parseDate di = some a ∧ parseDate dfim = some b ∧
      out = filtro_exclusoes (filtro_periodo (converter_datas (filtro_pagamento df)) a b)
        exc := by
  unfold filtrar_dados at h
  cases hdi : parseDate di with
  | none => rw [hdi] at h; exact absurd h (by simp)
  | some a =>
    cases hfim : parseDate dfim with
    | none => rw [hdi, hfim] at h; exact absurd h (by simp)
    | some b =>
      rw [hdi, hfim] at h
      exact ⟨a, b, rfl, rfl, (Option.some.inj h).symm⟩

theorem mem_converter_datas {l : List Registro} {rf : RegistroF} :
    rf ∈ converter_datas l ↔
      ∃ r ∈ l, parseCell r.dataEntrega = some rf.data ∧ rf = toF r rf.data := by
  unfold converter_datas
  rw [List.mem_filterMap]
  constructor
  · rintro ⟨r, hr, hmap⟩
    rcases Option.map_eq_some'.mp hmap with ⟨d, hd, hrf⟩
    subst hrf
    exact ⟨r, hr, hd, rfl⟩
  · rintro ⟨r, hr, hd, hrf⟩
    refine ⟨r, hr, ?_⟩
    rw [hd]
    exact congrArg some hrf.symm

theorem mem_out_propriedades {df : List Registro} {a b : Nat} {exc : List String}
    {rf : RegistroF}
    (h : rf ∈ filtro_exclusoes (filtro_periodo (converter_datas (filtro_pagamento df)) a b)
      exc) :
    pagamentoOk rf.pgto = true ∧ (a ≤ rf.data ∧ rf.data ≤ b) ∧ rf.entregador ∉ exc := by
  rcases List.mem_filter.mp h with ⟨h2, hexc⟩
  rcases List.mem_filter.mp h2 with ⟨h3, hper⟩
  rcases mem_converter_datas.mp h3 with ⟨r, hr, _, hrf⟩
  have hpay : pagamentoOk r.pgto = true := (List.mem_filter.mp hr).2
  have hab := (Bool.and_eq_true _ _).mp hper
  refine ⟨?_, ⟨of_decide_eq_true hab.1, of_decide_eq_true hab.2⟩, ?_⟩
  · rw [hrf]; exact hpay
  · intro hmem
    simp only [Bool.not_eq_true', decide_eq_false_iff_not] at hexc
    exact hexc hmem

/-! ## Sum partition lemmas -/

theorem soma_filtro_par {α : Type} (f : α → ℚ) (p : α → Bool) (l : List α) :
    ((l.filter p).map f).sum + ((l.filter (fun a => !(p a))).map f).sum =
      (l.map f).sum := by
  induction l with
  | nil => simp
  | cons x t ih =>
    by_cases hx : p x = true
    · rw [List.filter_cons_of_pos hx, List.filter_cons_of_neg (by simp [hx])]
      simp only [List.map_cons, List.sum_cons]
      rw [← ih]
      ring
    · rw [List.filter_cons_of_neg hx, List.filter_cons_of_pos (by simp [hx])]
      simp only [List.map_cons, List.sum_cons]
      rw [← ih]
      ring

theorem soma_particao {α κ : Type} [DecidableEq κ] (f : α → ℚ) (key : α → κ) :
    ∀ (ks : List κ) (l : List α), ks.Nodup → (∀ x ∈ l, key x ∈ ks) →
      (ks.map (fun k => ((l.filter (fun x => decide (key x = k))).map f).sum)).sum =
        (l.map f).sum := by
  intro ks
  induction ks with
  | nil =>
    intro l _ hcov
    cases l with
    | nil => simp
    | cons x t => exact absurd (hcov x (by simp)) (by simp)
  | cons k0 ks ih =>
    intro l hnd hcov
    have hnd0 : k0 ∉ ks := (List.nodup_cons.mp hnd).1
    have hndt : ks.Nodup := (List.nodup_cons.mp hnd).2
    set l2 := l.filter (fun x => !(decide (key x = k0))) with hl2
    have hfiltros : ∀ k ∈ ks,
        l.filter (fun x => decide (key x = k)) = l2.filter (fun x => decide (key x = k)) := by
      intro k hk
      rw [hl2, List.filter_filter]
      apply List.filter_congr
      intro x _
      by_cases hx : key x = k
      · have hk0 : ¬(k = k0) := fun he => hnd0 (he ▸ hk)
        simp [hx, hk0]
      · simp [hx]
    have hmapa : ks.map (fun k => ((l.filter (fun x => decide (key x = k))).map f).sum) =
        ks.map (fun k => ((l2.filter (fun x => decide (key x = k))).map f).sum) := by
      apply List.map_congr_left
      intro k hk
      rw [hfiltros k hk]
    have hcov2 : ∀ x ∈ l2, key x ∈ ks := by
      intro x hx
      rcases List.mem_filter.mp hx with ⟨hxl, hxk⟩
      have : key x ≠ k0 := by simpa using hxk
      rcases List.mem_cons.mp (hcov x hxl) with he | hm
      · exact absurd he this
      · exact hm
    rw [List.map_cons, List.sum_cons, hmapa, ih l2 hndt hcov2]
    exact soma_filtro_par f (fun x => decide (key x = k0)) l

/-! ## Claim theorems for the filter stage and the normalizer -/

/-- C4: the payment-method predicate of the Filter Stage keeps a record if
and only if its payment field, case-folded, contains the substring
`dinheiro`; a record with a missing payment field is excluded. -/
theorem filtro_pagamento_caracterizacao (df : List Registro) (r : Registro) :
    (r ∈ filtro_pagamento df ↔
      r ∈ df ∧ ∃ s, r.pgto = some s ∧ contemSub dinheiro (minusculas s) = true) ∧
    (r.pgto = none → r ∉ filtro_pagamento df) := by
  have hiff : r ∈ filtro_pagamento df ↔
      r ∈ df ∧ ∃ s, r.pgto = some s ∧ contemSub dinheiro (minusculas s) = true := by
    unfold filtro_pagamento
    rw [List.mem_filter]
    constructor
    · rintro ⟨hmem, hok⟩
      refine ⟨hmem, ?_⟩
      cases hp : r.pgto with
      | none => rw [hp] at hok; exact absurd hok (by simp [pagamentoOk])
      | some s =>
        rw [hp] at hok
        exact ⟨s, rfl, hok⟩
    · rintro ⟨hmem, s, hp, hsub⟩
      exact ⟨hmem, by rw [hp]; exact hsub⟩
  refine ⟨hiff, ?_⟩
  intro hnone hmem
  rcases hiff.mp hmem with ⟨-, s, hs, -⟩
  rw [hnone] at hs
  exact absurd hs (by simp)

/-- C4 witness: the characterization evaluated on a concrete record. -/
theorem filtro_pagamento_caracterizacao_wit :
    (let r : Registro := ⟨"Ana", .raw "05/01/2026".data, 100, "A", some "Dinheiro".data⟩
     (r ∈ filtro_pagamento [r] ↔
       r ∈ [r] ∧ ∃ s, r.pgto = some s ∧ contemSub dinheiro (minusculas s) = true) ∧
     (r.pgto = none → r ∉ filtro_pagamento [r])) :=
  filtro_pagamento_caracterizacao _ _

/-- C5: no record of the filtered output has an agent belonging to the
exclusion set (exact string equality). -/
theorem filtrar_exclusoes_completa (df : List Registro) (di dfim : List Char)
    (exc : List String) (out : List RegistroF)
    (h : filtrar_dados df di dfim exc = some out) :
    ∀ r ∈ out, r.entregador ∉ exc := by
  rcases filtrar_dados_eq_some h with ⟨a, b, -, -, hout⟩
  intro r hr
  rw [hout] at hr
  exact (mem_out_propriedades hr).2.2

/-- C5 witness: exclusion completeness on a concrete run, evaluated at the
one record of the output. -/
theorem filtrar_exclusoes_completa_wit :
    (⟨"Ana", 20260105, 100, "A", some "dinheiro".data⟩ : RegistroF).entregador ∉
      ["Bia"] :=
  filtrar_exclusoes_completa
    [⟨"Ana", .raw "05/01/2026".data, 100, "A", some "dinheiro".data⟩,
     ⟨"Bia", .raw "05/01/2026".data, 70, "A", some "dinheiro".data⟩]
    "01/01/2026".data "31/01/2026".data ["Bia"]
    [⟨"Ana", 20260105, 100, "A", some "dinheiro".data⟩] (by decide) _ (by decide)

/-- C6: the date-range filter keeps exactly the records whose parsed date
lies in the inclusive range, and a reversed range is not rejected: it
yields the empty output. -/
theorem filtrar_intervalo_fechado (df : List Registro) (di dfim : List Char)
    (exc : List String) (a b : Nat) (out : List RegistroF)
    (hdi : parseDate di = some a) (hfim : parseDate dfim = some b)
    (h : filtrar_dados df di dfim exc = some out) :
    (∀ r ∈ out, a ≤ r.data ∧ r.data ≤ b) ∧
    (∀ r, r ∈ filtro_periodo (converter_datas (filtro_pagamento df)) a b ↔
      r ∈ converter_datas (filtro_pagamento df) ∧ (a ≤ r.data ∧ r.data ≤ b)) ∧
    (b < a → out = []) := by
  rcases filtrar_dados_eq_some h with ⟨a0, b0, hdi0, hfim0, hout⟩
  have ha : a0 = a := Option.some.inj (hdi0.symm.trans hdi)
  have hb : b0 = b := Option.some.inj (hfim0.symm.trans hfim)
  rw [ha, hb] at hout
  refine ⟨?_, ?_, ?_⟩
  · intro r hr
    rw [hout] at hr
    exact (mem_out_propriedades hr).2.1
  · intro r
    unfold filtro_periodo
    rw [List.mem_filter]
    constructor
    · rintro ⟨hm, hper⟩
      have hab := (Bool.and_eq_true _ _).mp hper
      exact ⟨hm, of_decide_eq_true hab.1, of_decide_eq_true hab.2⟩
    · rintro ⟨hm, h1, h2⟩
      exact ⟨hm, by rw [decide_eq_true h1, decide_eq_true h2]; rfl⟩
  · intro hba
    rw [hout]
    have hper : filtro_periodo (converter_datas (filtro_pagamento df)) a b = [] := by
      unfold filtro_periodo
      rw [List.filter_eq_nil_iff]
      intro r _
      intro hcontra
      have hab := (Bool.and_eq_true _ _).mp hcontra
      have h1 := of_decide_eq_true hab.1
      have h2 := of_decide_eq_true hab.2
      omega
    rw [hper]
    rfl

/-- C6 witness: a reversed range run yields the empty output. -/
theorem filtrar_intervalo_fechado_wit :
    (∀ r ∈ ([] : List RegistroF), 20260131 ≤ r.data ∧ r.data ≤ 20260101) ∧
    (∀ r, r ∈ filtro_periodo (converter_datas (filtro_pagamento
        [⟨"Ana", .raw "05/01/2026".data, 100, "A", some "dinheiro".data⟩]))
        20260131 20260101 ↔
      r ∈ converter_datas (filtro_pagamento
        [⟨"Ana", .raw "05/01/2026".data, 100, "A", some "dinheiro".data⟩]) ∧
      (20260131 ≤ r.data ∧ r.data ≤ 20260101)) ∧
    (20260101 < 20260131 → ([] : List RegistroF) = []) :=
  filtrar_intervalo_fechado
    [⟨"Ana", .raw "05/01/2026".data, 100, "A", some "dinheiro".data⟩]
    "31/01/2026".data "01/01/2026".data [] 20260131 20260101 []
    (by decide) (by decide) (by decide)

/-- C7: a record whose delivery date does not parse is dropped by the
conversion step, counted by the separate malformed-data count, and is
absent from the output and from the record set of every unit table. -/
theorem data_invalida_descartada (df : List Registro) (di dfim : List Char)
    (exc : List String) (out : List RegistroF)
    (h : filtrar_dados df di dfim exc = some out)
    (r : Registro) (hr : r ∈ df) (hbad : parseCell r.dataEntrega = none) :
    (∀ rf ∈ out, toRegistro rf ≠ r) ∧
    removidos_nat df =
      (filtro_pagamento df).countP (fun r0 => (parseCell r0.dataEntrega).isNone) ∧
    (∀ p ∈ agrupar_por_operacao out,
      ∀ rf ∈ out.filter (fun r0 => decide (r0.operacao = p.1)), toRegistro rf ≠ r) := by
  have habs : ∀ rf : RegistroF, toRegistro rf ≠ r := by
    intro rf he
    have : parseCell (toRegistro rf).dataEntrega = none := by rw [he]; exact hbad
    simp [toRegistro, parseCell] at this
  refine ⟨fun rf _ => habs rf, ?_, fun p _ rf _ => habs rf⟩
  unfold removidos_nat
  have hlen : (converter_datas (filtro_pagamento df)).length =
      (filtro_pagamento df).countP (fun r0 => (parseCell r0.dataEntrega).isSome) := by
    unfold converter_datas
    rw [List.length_filterMap_eq_countP]
    apply List.countP_congr
    intro r0 _
    cases hp : parseCell r0.dataEntrega <;> simp [hp]
  rw [hlen]
  have hsplit : (filtro_pagamento df).countP (fun r0 => (parseCell r0.dataEntrega).isSome) +
      (filtro_pagamento df).countP (fun r0 => (parseCell r0.dataEntrega).isNone) =
      (filtro_pagamento df).length := by
    induction filtro_pagamento df with
    | nil => rfl
    | cons x t ih =>
      cases hp : parseCell x.dataEntrega <;>
        simp [List.countP_cons, hp, List.length_cons, ← ih] <;> omega
  omega

/-- C7 witness: a `31/13/2026` record is dropped and counted. -/
theorem data_invalida_descartada_wit :
    (∀ rf ∈ [(⟨"Ana", 20260105, 100, "A", some "dinheiro".data⟩ : RegistroF)],
      toRegistro rf ≠ ⟨"Bia", .raw "31/13/2026".data, 70, "A", some "dinheiro".data⟩) ∧
    removidos_nat
      [⟨"Ana", .raw "05/01/2026".data, 100, "A", some "dinheiro".data⟩,
       ⟨"Bia", .raw "31/13/2026".data, 70, "A", some "dinheiro".data⟩] =
      (filtro_pagamento
        [⟨"Ana", .raw "05/01/2026".data, 100, "A", some "dinheiro".data⟩,
         ⟨"Bia", .raw "31/13/2026".data, 70, "A", some "dinheiro".data⟩]).countP
        (fun r0 => (parseCell r0.dataEntrega).isNone) ∧
    (∀ p ∈ agrupar_por_operacao [(⟨"Ana", 20260105, 100, "A", some "dinheiro".data⟩ : RegistroF)],
      ∀ rf ∈ [(⟨"Ana", 20260105, 100, "A", some "dinheiro".data⟩ : RegistroF)].filter
        (fun r0 => decide (r0.operacao = p.1)),
      toRegistro rf ≠ ⟨"Bia", .raw "31/13/2026".data, 70, "A", some "dinheiro".data⟩) :=
  data_invalida_descartada
    [⟨"Ana", .raw "05/01/2026".data, 100, "A", some "dinheiro".data⟩,
     ⟨"Bia", .raw "31/13/2026".data, 70, "A", some "dinheiro".data⟩]
    "01/01/2026".data "31/01/2026".data [] _ (by decide) _ (by decide) (by decide)

/-- C8: the filter stage is idempotent: applied to its own output (whose
date column already holds converted datetime values) with the same
arguments, it returns that output unchanged. -/
theorem filtrar_idempotente (df : List Registro) (di dfim : List Char)
    (exc : List String) (out : List RegistroF)
    (h : filtrar_dados df di dfim exc = some out) :
    filtrar_dados (out.map toRegistro) di dfim exc = some out := by
  rcases filtrar_dados_eq_some h with ⟨a, b, hdi, hfim, hout⟩
  have hprops : ∀ rf ∈ out,
      pagamentoOk rf.pgto = true ∧ (a ≤ rf.data ∧ rf.data ≤ b) ∧ rf.entregador ∉ exc := by
    intro rf hr
    rw [hout] at hr
    exact mem_out_propriedades hr
  have h1 : filtro_pagamento (out.map toRegistro) = out.map toRegistro := by
    unfold filtro_pagamento
    rw [List.filter_eq_self]
    intro x hx
    rcases List.mem_map.mp hx with ⟨rf, hrf, hxe⟩
    rw [← hxe]
    exact (hprops rf hrf).1
  have h2 : converter_datas (out.map toRegistro) = out := by
    unfold converter_datas
    rw [List.filterMap_map]
    have hcomp : ((fun r : Registro => (parseCell r.dataEntrega).map (toF r)) ∘ toRegistro) =
        fun rf : RegistroF => some rf := by
      funext rf
      rfl
    rw [hcomp]
    have hsome : ∀ l : List RegistroF, l.filterMap (fun rf => some rf) = l := by
      intro l
      induction l with
      | nil => rfl
      | cons x t ih => rw [List.filterMap_cons, ih]
    exact hsome out
  have h3 : filtro_periodo out a b = out := by
    unfold filtro_periodo
    rw [List.filter_eq_self]
    intro rf hrf
    have hper := (hprops rf hrf).2.1
    rw [decide_eq_true hper.1, decide_eq_true hper.2]
    rfl
  have h4 : filtro_exclusoes out exc = out := by
    unfold filtro_exclusoes
    rw [List.filter_eq_self]
    intro rf hrf
    simp [(hprops rf hrf).2.2]
  have hred : filtrar_dados (out.map toRegistro) di dfim exc =
      some (filtro_exclusoes
        (filtro_periodo (converter_datas (filtro_pagamento (out.map toRegistro))) a b) exc) := by
    unfold filtrar_dados
    rw [hdi, hfim]
  rw [hred, h1, h2, h3, h4, hout]

/-- C8 witness: idempotence on a concrete run with records dropped by each
of the four filters. -/
theorem filtrar_idempotente_wit :
    filtrar_dados
      (([(⟨"Ana", 20260105, 100, "A", some "dinheiro".data⟩ : RegistroF)]).map toRegistro)
      "01/01/2026".data "31/01/2026".data ["Bia"] =
      some [⟨"Ana", 20260105, 100, "A", some "dinheiro".data⟩] :=
  filtrar_idempotente
    [⟨"Ana", .raw "05/01/2026".data, 100, "A", some "dinheiro".data⟩,
     ⟨"Bia", .raw "06/01/2026".data, 70, "A", some "dinheiro".data⟩,
     ⟨"Caio", .raw "31/13/2026".data, 50, "A", some "dinheiro".data⟩,
     ⟨"Davi", .raw "07/01/2026".data, 20, "A", some "cartao".data⟩,
     ⟨"Eva", .raw "07/02/2026".data, 10, "A", some "dinheiro".data⟩]
    "01/01/2026".data "31/01/2026".data ["Bia"] _ (by decide)

/-- C10: the phone normalizer yields only digits, always starts with `55`,
collapses a digitless input to exactly `55`, and is idempotent. -/
theorem normalizar_whatsapp_ok (s : List Char) :
    (normalizar_whatsapp s).all Char.isDigit = true ∧
    comecaCom ['5', '5'] (normalizar_whatsapp s) = true ∧
    normalizar_whatsapp (normalizar_whatsapp s) = normalizar_whatsapp s ∧
    (s.filter Char.isDigit = [] → normalizar_whatsapp s = ['5', '5']) := by
  have hall : ∀ l : List Char, (l.filter Char.isDigit).all Char.isDigit = true := by
    intro l
    rw [List.all_eq_true]
    intro c hc
    exact (List.mem_filter.mp hc).2
  have hid : ∀ l : List Char, l.all Char.isDigit = true → l.filter Char.isDigit = l := by
    intro l hl
    rw [List.filter_eq_self]
    intro c hc
    exact (List.all_eq_true.mp hl) c hc
  unfold normalizar_whatsapp
  by_cases h1 : comecaCom ['5', '5'] (s.filter Char.isDigit) = true
  · rw [if_pos h1]
    refine ⟨hall s, h1, ?_, ?_⟩
    · rw [hid _ (hall s), if_pos h1]
    · intro hvazio
      rw [hvazio] at h1
      exact absurd h1 (by decide)
  · rw [if_neg h1]
    have hall2 : ('5' :: '5' :: s.filter Char.isDigit).all Char.isDigit = true := by
      rw [List.all_cons, List.all_cons, hall s]
      rfl
    refine ⟨hall2, by simp [comecaCom], ?_, ?_⟩
    · rw [hid _ hall2]
      rw [if_pos (by simp [comecaCom])]
    · intro hvazio
      rw [hvazio]

/-- C10 witness: the normalizer evaluated on a concrete number. -/
theorem normalizar_whatsapp_ok_wit :
    (normalizar_whatsapp "41 92005-7292".data).all Char.isDigit = true ∧
    comecaCom ['5', '5'] (normalizar_whatsapp "41 92005-7292".data) = true ∧
    normalizar_whatsapp (normalizar_whatsapp "41 92005-7292".data) =
      normalizar_whatsapp "41 92005-7292".data ∧
    ("41 92005-7292".data.filter Char.isDigit = [] →
      normalizar_whatsapp "41 92005-7292".data = ['5', '5']) :=
  normalizar_whatsapp_ok _

/-! ## Lemmas and claim theorems for the aggregation stage -/

/-- The agent rows of a pivoted table: every row except the synthetic
`TOTAL` row. -/
def linhasAgentes (t : Tabela) : List (String × List ℚ × ℚ) :=
  t.linhas.filter (fun row => !(decide (row.1 = "TOTAL")))

/-- The `TOTAL` row of a pivoted table, when present. -/
def linhaTOTAL (t : Tabela) : Option (String × List ℚ × ℚ) :=
  t.linhas.find? (fun row => decide (row.1 = "TOTAL"))

/-- Consistency of the synthetic totals of a unit table with respect to the
unit record set `regs`: every `TOTAL`-row cell is the column sum over the
agent rows, every agent row `Total` cell is the row sum over the date
cells, and the grand-total cell is both the sum of the agent `Total` cells
and the sum of `amount` over all of the unit records. -/
def celulasConsistentes (regs : List RegistroF) (t : Tabela) : Prop :=
  ∃ cs gt, linhaTOTAL t = some ("TOTAL", cs, gt) ∧
    (∀ j, j < t.datas.length →
      cs.getD j 0 = ((linhasAgentes t).map (fun row => row.2.1.getD j 0)).sum) ∧
    (∀ row ∈ linhasAgentes t, row.2.2 = row.2.1.sum) ∧
    gt = ((linhasAgentes t).map (fun row => row.2.2)).sum ∧
    gt = somaValores regs

theorem tabelaDe_estrutura (l : List RegistroF)
    (hno : ∀ r ∈ l, r.entregador ≠ "TOTAL") :
    tabelaDe l = ⟨ordenarUnico Nat.blt (l.map (fun r => r.data)),
      (ordenarUnico ltStr (l.map (fun r => r.entregador))).map
        (linhaBase l (ordenarUnico Nat.blt (l.map (fun r => r.data)))) ++
      [linhaTotalDe (ordenarUnico Nat.blt (l.map (fun r => r.data)))
        ((ordenarUnico ltStr (l.map (fun r => r.entregador))).map
          (linhaBase l (ordenarUnico Nat.blt (l.map (fun r => r.data)))))]⟩ := by
  have hnot : "TOTAL" ∉ ordenarUnico ltStr (l.map (fun r => r.entregador)) := by
    rw [mem_ordenarUnico]
    intro hmem
    rcases List.mem_map.mp hmem with ⟨r, hr, he⟩
    exact hno r hr he
  simp only [tabelaDe]
  rw [if_neg hnot]

theorem mem_agrupar {df : List RegistroF} {op : String} {t : Tabela}
    (hmem : (op, t) ∈ agrupar_por_operacao df) :
    t = tabelaDe (df.filter (fun r => decide (r.operacao = op))) := by
  unfold agrupar_por_operacao at hmem
  rcases List.mem_map.mp hmem with ⟨op0, _, hpair⟩
  have hop : op0 = op := congrArg Prod.fst hpair
  have ht := congrArg Prod.snd hpair
  simp only at ht
  rw [← ht, hop]

theorem soma_linha_agente (l : List RegistroF) (ds : List Nat) (a : String)
    (hnd : ds.Nodup) (hcov : ∀ r ∈ l, r.entregador = a → r.data ∈ ds) :
    (ds.map (celula l a)).sum =
      somaValores (l.filter (fun r => decide (r.entregador = a))) := by
  have hmapa : ds.map (celula l a) = ds.map (fun d =>
      (((l.filter (fun r => decide (r.entregador = a))).filter
        (fun r => decide (r.data = d))).map (fun r => r.valor)).sum) := by
    apply List.map_congr_left
    intro d _
    unfold celula somaValores
    rw [List.filter_filter]
    have hperm : (l.filter (fun r => decide (r.entregador = a) && decide (r.data = d))) =
        (l.filter (fun r => decide (r.data = d) && decide (r.entregador = a))) := by
      apply List.filter_congr
      intro r _
      rw [Bool.and_comm]
    rw [hperm]
  rw [hmapa]
  unfold somaValores
  exact soma_particao (fun r => r.valor) (fun r => r.data) ds
    (l.filter (fun r => decide (r.entregador = a))) hnd
    (fun r hr => hcov r (List.mem_filter.mp hr).1
      (of_decide_eq_true (List.mem_filter.mp hr).2))

/-- C1 (amended): for every unit table built by the aggregation stage from
a filtered dataset in which no agent of that unit is named `TOTAL`, the
synthetic totals are consistent: each `TOTAL`-row cell is the column sum
over the agent rows, each agent `Total` cell is the row sum, and the
grand-total cell equals the sum of `amount` over the unit records. -/
theorem agrupar_celulas_consistentes (df : List Registro) (di dfim : List Char)
    (exc : List String) (out : List RegistroF) (op : String) (t : Tabela)
    (hfil : filtrar_dados df di dfim exc = some out)
    (hmem : (op, t) ∈ agrupar_por_operacao out)
    (hno : ∀ r ∈ out, r.operacao = op → r.entregador ≠ "TOTAL") :
    celulasConsistentes (out.filter (fun r => decide (r.operacao = op))) t := by
  set lu := out.filter (fun r => decide (r.operacao = op)) with hlu
  have hnolu : ∀ r ∈ lu, r.entregador ≠ "TOTAL" := by
    intro r hr
    exact hno r (List.mem_filter.mp hr).1
      (of_decide_eq_true (List.mem_filter.mp hr).2)
  have ht : t = tabelaDe lu := mem_agrupar hmem
  set ds := ordenarUnico Nat.blt (lu.map (fun r => r.data)) with hds
  set ags := ordenarUnico ltStr (lu.map (fun r => r.entregador)) with hags
  set base := ags.map (linhaBase lu ds) with hbase
  have hestr : t = ⟨ds, base ++ [linhaTotalDe ds base]⟩ := by
    rw [ht, tabelaDe_estrutura lu hnolu]
  have hbase_labels : ∀ row ∈ base, row.1 ≠ "TOTAL" := by
    intro row hrow
    rcases List.mem_map.mp hrow with ⟨a, ha, hrow_eq⟩
    have : row.1 = a := by rw [← hrow_eq]; rfl
    rw [this]
    intro hcontra
    have hmem2 : a ∈ lu.map (fun r => r.entregador) := (mem_ordenarUnico _ _).mp ha
    rcases List.mem_map.mp hmem2 with ⟨r, hr, hre⟩
    exact hnolu r hr (by rw [hre, hcontra])
  have hagentes : linhasAgentes t = base := by
    rw [hestr]
    unfold linhasAgentes
    simp only
    rw [List.filter_append]
    have h1 : base.filter (fun row => !(decide (row.1 = "TOTAL"))) = base := by
      rw [List.filter_eq_self]
      intro row hrow
      simp [hbase_labels row hrow]
    have h2 : ([linhaTotalDe ds base]).filter (fun row => !(decide (row.1 = "TOTAL"))) =
        [] := by
      rw [List.filter_eq_nil_iff]
      intro row hrow
      rw [List.mem_singleton.mp hrow]
      simp [linhaTotalDe]
    rw [h1, h2, List.append_nil]
  have htotal : linhaTOTAL t = some (linhaTotalDe ds base) := by
    rw [hestr]
    unfold linhaTOTAL
    simp only
    rw [List.find?_append]
    have h1 : base.find? (fun row => decide (row.1 = "TOTAL")) = none := by
      rw [List.find?_eq_none]
      intro row hrow
      simp [hbase_labels row hrow]
    rw [h1, Option.none_or]
    rw [List.find?_cons_of_pos _ (by simp [linhaTotalDe])]
  refine ⟨(List.range ds.length).map (somaColuna base), (base.map (fun row => row.2.2)).sum,
    ?_, ?_, ?_, ?_, ?_⟩
  · rw [htotal]
    rfl
  · intro j hj
    have hjd : j < ds.length := by
      rw [hestr] at hj
      exact hj
    rw [hagentes]
    rw [List.getD_eq_getElem?_getD, List.getElem?_map, List.getElem?_range hjd]
    rfl
  · intro row hrow
    rw [hagentes] at hrow
    rcases List.mem_map.mp hrow with ⟨a, _, hrow_eq⟩
    rw [← hrow_eq]
    rfl
  · rw [hagentes]
  · have hcomp : base.map (fun row => row.2.2) =
        ags.map (fun a => (ds.map (celula lu a)).sum) := by
      rw [hbase, List.map_map]
      rfl
    have hnd_ds : ds.Nodup := nodup_ordenarUnico_nat _
    have hnd_ags : ags.Nodup := nodup_ordenarUnico_str _
    have hcov_ds : ∀ r ∈ lu, r.data ∈ ds := by
      intro r hr
      rw [hds, mem_ordenarUnico]
      exact List.mem_map.mpr ⟨r, hr, rfl⟩
    have hcov_ags : ∀ r ∈ lu, r.entregador ∈ ags := by
      intro r hr
      rw [hags, mem_ordenarUnico]
      exact List.mem_map.mpr ⟨r, hr, rfl⟩
    rw [hcomp]
    have hlinhas : ags.map (fun a => (ds.map (celula lu a)).sum) =
        ags.map (fun a => somaValores (lu.filter (fun r => decide (r.entregador = a)))) := by
      apply List.map_congr_left
      intro a _
      exact soma_linha_agente lu ds a hnd_ds (fun r hr _ => hcov_ds r hr)
    rw [hlinhas]
    unfold somaValores
    exact soma_particao (fun r => r.valor) (fun r => r.entregador) ags lu hnd_ags hcov_ags

/-- C1 counterexample: when an agent is literally named `TOTAL`, the
assignment `pivot.loc["TOTAL"]` overwrites that agent row instead of
appending, and the claimed column-sum identity fails on the resulting
table: the `TOTAL` cell holds `3` while the agent rows sum to `2`. -/
theorem agrupar_celulas_cex :
    filtrar_dados
      [⟨"TOTAL", .raw "05/01/2026".data, 1, "X", some "dinheiro".data⟩,
       ⟨"Zed", .raw "05/01/2026".data, 2, "X", some "dinheiro".data⟩]
      "01/01/2026".data "31/01/2026".data [] =
      some [⟨"TOTAL", 20260105, 1, "X", some "dinheiro".data⟩,
            ⟨"Zed", 20260105, 2, "X", some "dinheiro".data⟩] ∧
    agrupar_por_operacao
      [⟨"TOTAL", 20260105, 1, "X", some "dinheiro".data⟩,
       ⟨"Zed", 20260105, 2, "X", some "dinheiro".data⟩] =
      [("X", ⟨[20260105], [("TOTAL", [3], 3), ("Zed", [2], 2)]⟩)] ∧
    ¬ celulasConsistentes
      ([(⟨"TOTAL", 20260105, 1, "X", some "dinheiro".data⟩ : RegistroF),
        ⟨"Zed", 20260105, 2, "X", some "dinheiro".data⟩].filter
        (fun r => decide (r.operacao = "X")))
      ⟨[20260105], [("TOTAL", [3], 3), ("Zed", [2], 2)]⟩ := by
  refine ⟨by decide, ?_, ?_⟩
  · norm_num +decide [agrupar_por_operacao, dedupPrimeira, tabelaDe, ordenarUnico,
      insereOrd, linhaBase, celula, somaValores, somaColuna, linhaTotalDe, ltStr,
      ltLista, List.range_succ, List.getD]
  · rintro ⟨cs, gt, hfind, hcol, -, -, -⟩
    have hfind2 : linhaTOTAL
        (⟨[20260105], [("TOTAL", [3], 3), ("Zed", [2], 2)]⟩ : Tabela) =
        some ("TOTAL", ([3] : List ℚ), (3 : ℚ)) := rfl
    have hinj := Option.some.inj (hfind.symm.trans hfind2)
    have hcs : cs = [3] := congrArg (fun p => p.2.1) hinj
    have h0 := hcol 0 (by decide)
    rw [hcs] at h0
    have hagz : linhasAgentes
        (⟨[20260105], [("TOTAL", [3], 3), ("Zed", [2], 2)]⟩ : Tabela) =
        [("Zed", [2], 2)] := rfl
    rw [hagz] at h0
    norm_num at h0

/-- C1 witness: the amended consistency theorem applied to a concrete
two-agent unit. -/
theorem agrupar_celulas_consistentes_wit :
    celulasConsistentes
      ([(⟨"Ana", 20260105, 100, "A", some "dinheiro".data⟩ : RegistroF),
        ⟨"Bia", 20260106, 50, "A", some "dinheiro".data⟩].filter
        (fun r => decide (r.operacao = "A")))
      ⟨[20260105, 20260106],
        [("Ana", [100, 0], 100), ("Bia", [0, 50], 50), ("TOTAL", [100, 50], 150)]⟩ :=
  agrupar_celulas_consistentes
    [⟨"Ana", .raw "05/01/2026".data, 100, "A", some "dinheiro".data⟩,
     ⟨"Bia", .raw "06/01/2026".data, 50, "A", some "dinheiro".data⟩]
    "01/01/2026".data "31/01/2026".data []
    [⟨"Ana", 20260105, 100, "A", some "dinheiro".data⟩,
     ⟨"Bia", 20260106, 50, "A", some "dinheiro".data⟩]
    "A" _ (by decide)
    (by
      have hags : agrupar_por_operacao
          [(⟨"Ana", 20260105, 100, "A", some "dinheiro".data⟩ : RegistroF),
           ⟨"Bia", 20260106, 50, "A", some "dinheiro".data⟩] =
          [("A", ⟨[20260105, 20260106],
            [("Ana", [100, 0], 100), ("Bia", [0, 50], 50),
             ("TOTAL", [100, 50], 150)]⟩)] := by
        norm_num +decide [agrupar_por_operacao, dedupPrimeira, tabelaDe, ordenarUnico,
          insereOrd, linhaBase, celula, somaValores, somaColuna, linhaTotalDe, ltStr,
          ltLista, List.range_succ, List.getD]
      rw [hags]
      exact List.mem_singleton.mpr rfl)
    (by decide)

/-- C9 (amended): provided no agent of the unit is literally named
`TOTAL`, the synthetic `TOTAL` row is the last row of the unit table; the
`Total` column is structurally the last entry of every row. -/
theorem agrupar_total_ultima_linha (df : List Registro) (di dfim : List Char)
    (exc : List String) (out : List RegistroF) (op : String) (t : Tabela)
    (hfil : filtrar_dados df di dfim exc = some out)
    (hmem : (op, t) ∈ agrupar_por_operacao out)
    (hno : ∀ r ∈ out, r.operacao = op → r.entregador ≠ "TOTAL") :
    (t.linhas.map (fun row => row.1)).getLast? = some "TOTAL" := by
  set lu := out.filter (fun r => decide (r.operacao = op)) with hlu
  have hnolu : ∀ r ∈ lu, r.entregador ≠ "TOTAL" := by
    intro r hr
    exact hno r (List.mem_filter.mp hr).1
      (of_decide_eq_true (List.mem_filter.mp hr).2)
  have ht : t = tabelaDe lu := mem_agrupar hmem
  rw [ht, tabelaDe_estrutura lu hnolu]
  simp only
  rw [List.map_append, List.map_cons, List.map_nil]
  exact List.getLast?_concat _

/-- C9 counterexample: with an agent literally named `TOTAL`, the
overwritten `TOTAL` row sits at its sorted index position and the last row
is another agent. -/
theorem agrupar_total_ultima_linha_cex :
    filtrar_dados
      [⟨"TOTAL", .raw "06/01/2026".data, 5, "Y", some "dinheiro".data⟩,
       ⟨"Zed", .raw "06/01/2026".data, 7, "Y", some "dinheiro".data⟩]
      "01/01/2026".data "31/01/2026".data [] =
      some [⟨"TOTAL", 20260106, 5, "Y", some "dinheiro".data⟩,
            ⟨"Zed", 20260106, 7, "Y", some "dinheiro".data⟩] ∧
    agrupar_por_operacao
      [⟨"TOTAL", 20260106, 5, "Y", some "dinheiro".data⟩,
       ⟨"Zed", 20260106, 7, "Y", some "dinheiro".data⟩] =
      [("Y", ⟨[20260106], [("TOTAL", [12], 12), ("Zed", [7], 7)]⟩)] ∧
    ((⟨[20260106], [("TOTAL", [12], 12), ("Zed", [7], 7)]⟩ : Tabela).linhas.map
      (fun row => row.1)).getLast? ≠ some "TOTAL" := by
  refine ⟨by decide, ?_, by decide⟩
  norm_num +decide [agrupar_por_operacao, dedupPrimeira, tabelaDe, ordenarUnico,
    insereOrd, linhaBase, celula, somaValores, somaColuna, linhaTotalDe, ltStr,
    ltLista, List.range_succ, List.getD]

/-- C9 witness: the amended last-row theorem applied to a concrete unit. -/
theorem agrupar_total_ultima_linha_wit :
    (((⟨[20260106], [("Caio", [70], 70), ("TOTAL", [70], 70)]⟩ : Tabela).linhas.map
      (fun row => row.1)).getLast?) = some "TOTAL" :=
  agrupar_total_ultima_linha
    [⟨"Caio", .raw "06/01/2026".data, 70, "B", some "dinheiro".data⟩]
    "01/01/2026".data "31/01/2026".data []
    [⟨"Caio", 20260106, 70, "B", some "dinheiro".data⟩]
    "B" _ (by decide)
    (by
      have hags : agrupar_por_operacao
          [(⟨"Caio", 20260106, 70, "B", some "dinheiro".data⟩ : RegistroF)] =
          [("B", ⟨[20260106], [("Caio", [70], 70), ("TOTAL", [70], 70)]⟩)] := by
        norm_num +decide [agrupar_por_operacao, dedupPrimeira, tabelaDe, ordenarUnico,
          insereOrd, linhaBase, celula, somaValores, somaColuna, linhaTotalDe, ltStr,
          ltLista, List.range_succ, List.getD]
      rw [hags]
      exact List.mem_singleton.mpr rfl)
    (by decide)

/-! ## Claim theorems for the summary stage -/

theorem comprimento_resumoBase :
    ∀ (rel : List (String × Tabela)) (l : List (String × ℚ)),
      resumoBase rel = some l → l.length = rel.length := by
  intro rel
  induction rel with
  | nil =>
    intro l h
    rw [resumoBase] at h
    rw [← Option.some.inj h]
    rfl
  | cons p rest ih =>
    intro l h
    rw [resumoBase] at h
    cases hf : p.2.linhas.find? (fun row => decide (row.1 = "TOTAL")) with
    | none =>
      rw [hf] at h
      exact absurd h (by simp)
    | some row =>
      cases hrest : resumoBase rest with
      | none =>
        rw [hf, hrest] at h
        exact absurd h (by simp)
      | some rs =>
        rw [hf, hrest] at h
        rw [← Option.some.inj h, List.length_cons, List.length_cons, ih rs hrest]

theorem comprimento_insereDesc (x : String × ℚ) (l : List (String × ℚ)) :
    (insereDesc x l).length = l.length + 1 := by
  induction l with
  | nil => rfl
  | cons y t ih =>
    rw [insereDesc]
    by_cases hc : y.2 ≤ x.2
    · rw [if_pos hc]
      rfl
    · rw [if_neg hc, List.length_cons, List.length_cons, ih]

theorem comprimento_ordenarDesc (l : List (String × ℚ)) :
    (ordenarDesc l).length = l.length := by
  induction l with
  | nil => rfl
  | cons x t ih =>
    have : ordenarDesc (x :: t) = insereDesc x (ordenarDesc t) := rfl
    rw [this, comprimento_insereDesc, ih, List.length_cons]

/-- C3 counterexample: on the empty unit-to-table mapping the summary
stage raises (`pd.DataFrame([])` has no columns, so `sort_values` fails
with a `KeyError`), so no sequence of length `0 + 1` is returned. -/
theorem resumo_vazio_cex :
    gerar_resumo_geral [] = none ∧
    ¬ ∃ res : List (String × ℚ), gerar_resumo_geral [] = some res ∧ res.length = 0 + 1 := by
  constructor
  · rfl
  · rintro ⟨res, h, -⟩
    rw [show gerar_resumo_geral [] = none from rfl] at h
    exact absurd h (by simp)

/-- C3 (amended): whenever the summary stage returns — that is, on a
nonempty mapping whose tables each contain the `TOTAL` grand-total row —
the result has length `number_of_units + 1`, its last row is the synthetic
`TOTAL` row, and that row holds the sum of the values of all other rows. -/
theorem resumo_comprimento_total (rel : List (String × Tabela))
    (res : List (String × ℚ)) (h : gerar_resumo_geral rel = some res) :
    res.length = rel.length + 1 ∧
    res.getLast? = some ("TOTAL", (res.dropLast.map (fun p => p.2)).sum) := by
  unfold gerar_resumo_geral at h
  cases hb : resumoBase rel with
  | none => rw [hb] at h; exact absurd h (by simp)
  | some resumo =>
    cases resumo with
    | nil => rw [hb] at h; exact absurd h (by simp)
    | cons x xs =>
      rw [hb] at h
      have hres : res = ordenarDesc (x :: xs) ++
          [("TOTAL", ((ordenarDesc (x :: xs)).map (fun p => p.2)).sum)] :=
        (Option.some.inj h).symm
      refine ⟨?_, ?_⟩
      · rw [hres, List.length_append, comprimento_ordenarDesc,
          comprimento_resumoBase rel (x :: xs) hb]
        rfl
      · rw [hres, List.getLast?_concat, List.dropLast_concat]

/-- C3 witness: a two-unit mapping summarized; length, last row and total
as stated. -/
theorem resumo_comprimento_total_wit :
    ([("A", (150 : ℚ)), ("B", 70), ("TOTAL", 220)] : List (String × ℚ)).length =
      ([("A", Tabela.mk [20260105] [("Ana", [150], 150), ("TOTAL", [150], 150)]),
        ("B", Tabela.mk [20260106] [("Caio", [70], 70), ("TOTAL", [70], 70)])]).length + 1 ∧
    ([("A", (150 : ℚ)), ("B", 70), ("TOTAL", 220)] : List (String × ℚ)).getLast? =
      some ("TOTAL",
        (([("A", (150 : ℚ)), ("B", 70), ("TOTAL", 220)] : List (String × ℚ)).dropLast.map
          (fun p => p.2)).sum) :=
  resumo_comprimento_total
    [("A", Tabela.mk [20260105] [("Ana", [150], 150), ("TOTAL", [150], 150)]),
     ("B", Tabela.mk [20260106] [("Caio", [70], 70), ("TOTAL", [70], 70)])]
    [("A", 150), ("B", 70), ("TOTAL", 220)]
    (by norm_num +decide [gerar_resumo_geral, resumoBase, ordenarDesc, insereDesc, List.find?])

end Fechamentos
